import Mathlib

/-!
Verification development for the `dp` tool (src/dp.ts): an npm
`package.json` to import-map converter for Deno.

The development shallowly embeds the dependency-classification and
URL-resolution core of `src/dp.ts`:

* `cdns` — the four CDN URL builder functions (src/dp.ts lines 55-76),
  including the JavaScript truthiness test `version ? ... : ...`;
* `encodeURI` — the ECMAScript `encodeURI` builtin used by the builders,
  modelled by its specified unescaped character set and UTF-8
  percent-encoding;
* `processEntry` — the body of the `for` loop of `addImports`
  (src/dp.ts lines 148-202): the `@types` skip, the `semver.valid` /
  `semver.validRange` probes, the wildcard / git / local-path /
  remote-URL / GitHub shorthand branches, and the final opaque-tag
  fallthrough;
* `addImports` / `getImports` — the reducer that walks the selected
  manifest sections and accumulates the `imports` record
  (src/dp.ts lines 143-218), with the record modelled as an
  insertion-ordered association list (JavaScript object semantics) and
  the `console.warn` diagnostics modelled as an explicit warning list;
* `mainKeys` — the section-key list construction of `main`
  (src/dp.ts lines 259-269), including the final `reverse`;
* `emitDoc` / `jsonStringify` — the emission
  `JSON.stringify({ imports }, undefined, "  ")` of `main`
  (src/dp.ts lines 273-283), and `jsonParse`, a model of `JSON.parse`
  on the string/object sublanguage this tool emits.

The `semver` library is imported by `src/dp.ts` from a CDN and its code
is not part of the repository; it is therefore modelled from the spec
(see `specValid`, `specValidRange`). Everywhere else the reducer is
parameterised over an arbitrary `Semver` oracle so that the structural
theorems hold for any library behaviour.
-/

/-- JavaScript truthiness of a `string | null | undefined` value:
`null`/`undefined` and the empty string are falsy. Used for
`if (version)`, `if (range)` and `version ? ... : ...` in src/dp.ts. -/
def jsTruthy : Option String → Bool
  | none => false
  | some s => !(s == (""))

/-- The string carried by a truthy `string | undefined` value
(`""` when absent; only read under `jsTruthy`). -/
def jsVal : Option String → String
  | none => ""
  | some s => s

/-- JavaScript `String.prototype.startsWith`, modelled on the character
lists of the two strings. -/
def jsStartsWith (s p : String) : Bool :=
  p.data.isPrefixOf s.data

/-- JavaScript `String.prototype.includes` for a single character
(`value.includes("/")` in src/dp.ts line 189). -/
def jsIncludes (s : String) (c : Char) : Bool :=
  s.data.contains c

/-- The local-path test of src/dp.ts line 175:
`[".", "~", ".", "/"].includes(key[0])`. `key[0]` of an empty string is
`undefined`, which is not in the list; the duplicate `"."` of the source
literal does not change the set. Note the test inspects the NAME, not
the version value. -/
def headIsLocal (key : String) : Bool :=
  match key.data with
  | [] => false
  | c :: _ => c == '.' || c == '~' || c == '/'

/-- The characters ECMAScript `encodeURI` leaves unescaped:
`uriReserved ∪ uriUnescaped ∪ { "#" }` (ASCII letters, digits,
`- _ . ! ~ * ' ( )` and `; / ? : @ & = + $ , #`). -/
def isUriUnescaped (c : Char) : Bool :=
  c.isAlpha || c.isDigit ||
    (['-', '_', '.', '!', '~', '*', '\'', '(', ')',
      ';', '/', '?', ':', '@', '&', '=', '+', '$', ',', '#'].contains c)

/-- UTF-8 bytes of a Unicode scalar value. -/
def utf8Bytes (c : Char) : List Nat :=
  let n := c.toNat
  if n < 128 then [n]
  else if n < 2048 then [192 + n / 64, 128 + n % 64]
  else if n < 65536 then [224 + n / 4096, 128 + (n / 64) % 64, 128 + n % 64]
  else [240 + n / 262144, 128 + (n / 4096) % 64, 128 + (n / 64) % 64, 128 + n % 64]

/-- Uppercase hexadecimal digit (`encodeURI` produces uppercase hex). -/
def hexUpper (n : Nat) : Char :=
  if n < 10 then Char.ofNat (48 + n) else Char.ofNat (55 + n)

/-- Lowercase hexadecimal digit (`JSON.stringify` `\u00xx` escapes are
lowercase). -/
def hexLower (n : Nat) : Char :=
  if n < 10 then Char.ofNat (48 + n) else Char.ofNat (87 + n)

/-- `%XX` percent-encoding of one byte, uppercase hex. -/
def percentEncodeByte (n : Nat) : List Char :=
  ['%', hexUpper (n / 16), hexUpper (n % 16)]

/-- Character-list worker for `encodeURI`. -/
def encodeURIChars : List Char → List Char
  | [] => []
  | c :: cs =>
    (if isUriUnescaped c then [c] else ((utf8Bytes c).map percentEncodeByte).flatten)
      ++ encodeURIChars cs

/-- ECMAScript `encodeURI`: unescaped characters pass through, all
others are percent-encoded byte-by-byte via UTF-8. -/
def encodeURI (s : String) : String :=
  String.mk (encodeURIChars s.data)

/-- The CDN selector: the keys of the `cdns` record of src/dp.ts. -/
inductive Cdn where
  | skypack
  | esm
  | jspm
  | unpkg
deriving DecidableEq

/-- The four CDN URL builders (src/dp.ts lines 55-76). Each mirrors
`version ? withVersionTemplate : withoutVersionTemplate`, where a
`string | undefined` version is truthy iff present and nonempty. -/
def cdns (cdn : Cdn) (pkg : String) (version : Option String) : String :=
  match cdn with
  | Cdn.skypack =>
    if jsTruthy version then
      ("https://cdn.skypack.dev/") ++ pkg ++ ("@") ++ encodeURI (jsVal version)
    else ("https://cdn.skypack.dev/") ++ pkg ++ ("/")
  | Cdn.esm =>
    if jsTruthy version then
      ("https://esm.sh/") ++ pkg ++ ("@") ++ encodeURI (jsVal version)
    else ("https://esm.sh/") ++ pkg
  | Cdn.jspm =>
    if jsTruthy version then
      ("https://jspm.dev/npm:") ++ pkg ++ ("@") ++ encodeURI (jsVal version)
    else ("https://jspm.dev/npm:") ++ pkg
  | Cdn.unpkg =>
    if jsTruthy version then
      ("https://unpkg.com/") ++ pkg ++ ("@") ++ encodeURI (jsVal version)
    else ("https://unpkg.com/") ++ pkg

/-- The advisory diagnostics emitted with `console.warn` in
`addImports` (src/dp.ts lines 150, 169, 176, 183, 190): which skip
branch fired, for which entry. -/
inductive Warning where
  | typeOnly (key : String)
  | gitDependency (key value : String)
  | localPath (key value : String)
  | remoteUrl (key value : String)
  | gitHubUrl (key value : String)
deriving DecidableEq

/-- The interface of the `semver` library consumed by src/dp.ts
(line 6 imports it from a CDN; its source is not in the repository):
`valid` and `validRange` each return a string on success and
`null` (here `none`) on failure. -/
structure Semver where
  valid : String → Option String
  validRange : String → Option String

/-- The body of the `for` loop of `addImports` (src/dp.ts lines
148-202) for a single `[key, value]` entry: either the fully
built import URL (`Except.ok`) or the skip decision with its warning
(`Except.error`). The branch order is exactly the source's:
`@types` prefix, `semver.valid`, `semver.validRange`, empty-or-`"*"`
wildcard, `git+`/`git:` reference, local path (tested on the NAME's
first character), `http:`/`https:` URL, GitHub shorthand (value
contains `/`), and finally the opaque-tag fallthrough. -/
def processEntry (sv : Semver) (cdn : Cdn) (key value : String) : Except Warning String :=
  if jsStartsWith key ("@types") then Except.error (Warning.typeOnly key)
  else
    let version := sv.valid value
    if jsTruthy version then Except.ok (cdns cdn key version)
    else
      let range := sv.validRange value
      if jsTruthy range then Except.ok (cdns cdn key range)
      else if value == ("") || value == ("*") then Except.ok (cdns cdn key none)
      else if jsStartsWith value ("git+") || jsStartsWith value ("git:") then
        Except.error (Warning.gitDependency key value)
      else if headIsLocal key then Except.error (Warning.localPath key value)
      else if jsStartsWith value ("http:") || jsStartsWith value ("https:") then
        Except.error (Warning.remoteUrl key value)
      else if jsIncludes value '/' then Except.error (Warning.gitHubUrl key value)
      else Except.ok (cdns cdn key (some value))

/-- JavaScript object property assignment `imports[key] = url` on an
insertion-ordered record: an existing key keeps its position and gets
the new value, a new key is appended. -/
def setKey : List (String × String) → String → String → List (String × String)
  | [], k, v => [(k, v)]
  | (k', v') :: rest, k, v =>
    if k' = k then (k', v) :: rest else (k', v') :: setKey rest k v

/-- Property lookup on the insertion-ordered record. -/
def lookupKey : List (String × String) → String → Option String
  | [], _ => none
  | (k', v') :: rest, k => if k' = k then some v' else lookupKey rest k

/-- `addImports` (src/dp.ts lines 143-203): walk the entries of one
dependency record in order; each entry either assigns exactly one URL
into `imports` or is skipped with one warning, and the remaining
entries are processed either way. -/
def addImports (sv : Semver) (imports : List (String × String))
    (dependencies : List (String × String)) (cdn : Cdn) :
    List (String × String) × List Warning :=
  match dependencies with
  | [] => (imports, [])
  | (key, value) :: rest =>
    match processEntry sv cdn key value with
    | Except.ok url => addImports sv (setKey imports key url) rest cdn
    | Except.error w =>
      let p := addImports sv imports rest cdn
      (p.1, w :: p.2)

/-- The four optional dependency sections of a manifest
(`PackageJson`, src/dp.ts lines 43-48); each maps package names to
version specifiers, modelled as an entry-ordered association list. -/
structure PackageJson where
  dependencies : Option (List (String × String))
  devDependencies : Option (List (String × String))
  peerDependencies : Option (List (String × String))
  optionalDependencies : Option (List (String × String))

/-- The keys of `PackageJson` (`keyof PackageJson`). -/
inductive SectionKey where
  | dependencies
  | devDependencies
  | peerDependencies
  | optionalDependencies
deriving DecidableEq

/-- `packageJson[key]` field access. -/
def sectionGet (pj : PackageJson) : SectionKey → Option (List (String × String))
  | SectionKey.dependencies => pj.dependencies
  | SectionKey.devDependencies => pj.devDependencies
  | SectionKey.peerDependencies => pj.peerDependencies
  | SectionKey.optionalDependencies => pj.optionalDependencies

/-- The loop of `getImports` (src/dp.ts lines 205-218) threading the
shared `imports` record through the sections; a present (truthy)
section is processed with `addImports`, a missing one is skipped. -/
def getImportsAux (sv : Semver) (pj : PackageJson) (cdn : Cdn) :
    List SectionKey → List (String × String) → List (String × String) × List Warning
  | [], imports => (imports, [])
  | key :: rest, imports =>
    match sectionGet pj key with
    | some deps =>
      let p := addImports sv imports deps cdn
      let q := getImportsAux sv pj cdn rest p.1
      (q.1, p.2 ++ q.2)
    | none => getImportsAux sv pj cdn rest imports

/-- `getImports(packageJson, keys, cdn)` (src/dp.ts lines 205-218),
starting from the empty record. -/
def getImports (sv : Semver) (pj : PackageJson) (keys : List SectionKey) (cdn : Cdn) :
    List (String × String) × List Warning :=
  getImportsAux sv pj cdn keys []

/-- The section-key list built by `main` (src/dp.ts lines 259-269):
start from `["dependencies"]`, push the sections selected by the
`--dev`, `--optional` and `--peer` flags in that order, then `reverse`,
so `dependencies` is always processed last. -/
def mainKeys (dev optional peer : Bool) : List SectionKey :=
  let keys := [SectionKey.dependencies]
  let keys := if dev then keys ++ [SectionKey.devDependencies] else keys
  let keys := if optional then keys ++ [SectionKey.optionalDependencies] else keys
  let keys := if peer then keys ++ [SectionKey.peerDependencies] else keys
  keys.reverse

/-- Numeric identifier of semver: nonempty, all digits, no leading
zero unless it is exactly `0`. -/
def numericOk : List Char → Bool
  | [] => false
  | [c] => c.isDigit
  | c :: c2 :: cs => c.isDigit && !(c == '0') && (c2 :: cs).all Char.isDigit

/-- Characters allowed in semver prerelease/build identifiers. -/
def isIdentChar (c : Char) : Bool :=
  c.isAlpha || c.isDigit || c == '-'

/-- Prerelease identifier: nonempty alphanumeric-or-hyphen; a purely
numeric one must have no leading zeros. -/
def preIdOk (cs : List Char) : Bool :=
  !cs.isEmpty && cs.all isIdentChar &&
    (if cs.all Char.isDigit then numericOk cs else true)

/-- Build identifier: nonempty alphanumeric-or-hyphen. -/
def buildIdOk (cs : List Char) : Bool :=
  !cs.isEmpty && cs.all isIdentChar

/-- Dot-separated prerelease part. -/
def preOk (cs : List Char) : Bool :=
  (cs.splitOn '.').all preIdOk

/-- Dot-separated build part. -/
def buildOk (cs : List Char) : Bool :=
  (cs.splitOn '.').all buildIdOk

/-- The optional `-prerelease+build` tail after a version core. -/
def semverTailOk : List Char → Bool
  | [] => true
  | '-' :: r =>
    preOk (r.takeWhile (fun c => !(c == '+'))) &&
      (match r.dropWhile (fun c => !(c == '+')) with
       | [] => true
       | _ :: b => buildOk b)
  | '+' :: r => buildOk r
  | _ => false

/-- Modelled from the spec: "a syntactically valid single semantic
version" (spec 4.1 step 1) — `MAJOR.MINOR.PATCH` numeric identifiers
without leading zeros, with optional dot-separated prerelease and
build metadata. -/
def isValidSemver (s : String) : Bool :=
  let cs := s.data
  let core := cs.takeWhile (fun c => c.isDigit || c == '.')
  let rest := cs.dropWhile (fun c => c.isDigit || c == '.')
  (match core.splitOn '.' with
   | [ma, mi, pa] => numericOk ma && numericOk mi && numericOk pa
   | _ => false) && semverTailOk rest

/-- Strip a leading range comparator operator
(`<=`, `>=`, `<`, `>`, `=`, `^`, `~`). -/
def stripOp : List Char → List Char
  | '<' :: '=' :: r => r
  | '>' :: '=' :: r => r
  | '<' :: r => r
  | '>' :: r => r
  | '=' :: r => r
  | '^' :: r => r
  | '~' :: r => r
  | r => r

/-- An `xr` range component: `x`, `X`, `*`, or a numeric identifier. -/
def xrOk (cs : List Char) : Bool :=
  cs == ['x'] || cs == ['X'] || cs == ['*'] || numericOk cs

/-- A partial version of the range grammar: one to three `xr`
components, with an optional prerelease/build qualifier after a full
triple. -/
def isPartialVer (cs : List Char) : Bool :=
  let core := cs.takeWhile (fun c => c.isDigit || c == '.' || c == 'x' || c == 'X' || c == '*')
  let rest := cs.dropWhile (fun c => c.isDigit || c == '.' || c == 'x' || c == 'X' || c == '*')
  match core.splitOn '.' with
  | [a] => xrOk a && rest.isEmpty
  | [a, b] => xrOk a && xrOk b && rest.isEmpty
  | [a, b, c] => xrOk a && xrOk b && xrOk c && semverTailOk rest
  | _ => false

/-- A comparator expression: optional operator followed by a partial
version. -/
def isComparator (cs : List Char) : Bool :=
  isPartialVer (stripOp cs)

/-- Split one range alternative into comma/space-separated tokens
(spec 4.1 step 2: "comma/space-separated comparator expressions"),
dropping empty tokens. -/
def splitSeps (cs : List Char) : List (List Char) :=
  (((cs.splitOn ' ').map (fun t => t.splitOn ',')).flatten).filter
    (fun t => !t.isEmpty)

/-- One `||`-alternative of a range: a hyphen range
(`partial - partial`) or a nonempty sequence of comparators. -/
def isComparatorSet (cs : List Char) : Bool :=
  match splitSeps cs with
  | [] => false
  | [p1, hy, p2] =>
    (hy == ['-'] && isPartialVer p1 && isPartialVer p2) ||
      ([p1, hy, p2].all isComparator)
  | toks => toks.all isComparator

/-- Split a character list on the two-character separator `||`
(leftmost-first, as JavaScript `split`). -/
def splitBars : List Char → List (List Char)
  | [] => [[]]
  | '|' :: ('|' :: rest) => [] :: splitBars rest
  | c :: rest =>
    match splitBars rest with
    | [] => [[c]]
    | t :: ts => (c :: t) :: ts

/-- Modelled from the spec: "a syntactically valid semantic version
range (comma/space-separated comparator expressions, `^`, `~`, `x`,
`*`, hyphen ranges, OR-joined with `||`)" (spec 4.1 step 2). -/
def isRangeStr (s : String) : Bool :=
  (splitBars s.data).all isComparatorSet

/-- Modelled from the spec: `semver.valid` of the CDN-imported semver
library, whose source is not in the repository. Per spec 4.1 step 1 and
the data model (`ExactVersion(string)` carries the specifier), it
accepts a syntactically valid single semantic version and returns the
string unchanged. -/
def specValid (value : String) : Option String :=
  if isValidSemver value then some value else none

/-- Modelled from the spec: `semver.validRange` of the CDN-imported
semver library. Per spec 4.1 step 2 it accepts a syntactically valid
range and (per the data model `Range(string)` and the spec 8
end-to-end example, where `^4.17.0` survives into the URL) returns the
string unchanged. The spec's decision order (steps 2-3) requires that
the empty string and `"*"` are NOT accepted as ranges, since the spec
states `classify("")` and `classify("*")` yield Wildcard. -/
def specValidRange (value : String) : Option String :=
  if value == ("") || value == ("*") then none
  else if isRangeStr value then some value else none

/-- The spec-modelled semver oracle. -/
def specSemver : Semver :=
  { valid := specValid, validRange := specValidRange }

mutual
/-- The JSON values occurring in the emitted import-map document
(src/dp.ts lines 273-283): strings and string-keyed objects with
insertion-ordered members. -/
inductive Json where
  | str (s : String)
  | obj (members : JsonMembers)
deriving DecidableEq
/-- Insertion-ordered members of a JSON object. -/
inductive JsonMembers where
  | nil
  | cons (key : String) (val : Json) (rest : JsonMembers)
deriving DecidableEq
end

/-- One escaped character of ECMAScript `QuoteJSONString` (the string
quoting of `JSON.stringify`): `"` and `\` get backslash escapes, the
five named control characters get their short escapes, the remaining
control characters get lowercase `\u00xx` escapes, and everything else
passes through. -/
def escapeJSONChar (c : Char) : List Char :=
  if c = '"' then ['\\', '"']
  else if c = '\\' then ['\\', '\\']
  else if c = '\x08' then ['\\', 'b']
  else if c = '\x0c' then ['\\', 'f']
  else if c = '\n' then ['\\', 'n']
  else if c = '\r' then ['\\', 'r']
  else if c = '\t' then ['\\', 't']
  else if c.toNat < 32 then ['\\', 'u', '0', '0', hexLower (c.toNat / 16), hexLower (c.toNat % 16)]
  else [c]

/-- The body (between the quotes) of a quoted JSON string. -/
def quoteBody : List Char → List Char
  | [] => []
  | c :: cs => escapeJSONChar c ++ quoteBody cs

/-- `n` levels of the two-space gap `"  "` that `main` passes to
`JSON.stringify` (src/dp.ts line 276). -/
def indentChars : Nat → List Char
  | 0 => []
  | n + 1 => ' ' :: (' ' :: indentChars n)

mutual
/-- `JSON.stringify(value, undefined, "  ")` for the `Json` sublanguage,
producing a character list: a string is quoted; an empty object prints
as `\x7b\x7d`; a nonempty object opens a brace, prints its members one
per line at the next indent level, and closes the brace at the current
indent level. -/
def printValChars : Json → Nat → List Char
  | Json.str s, _ => '"' :: (quoteBody s.data ++ ['"'])
  | Json.obj JsonMembers.nil, _ => ['\x7b', '\x7d']
  | Json.obj (JsonMembers.cons k v rest), depth =>
    '\x7b' :: ('\n' :: (printMembersChars (JsonMembers.cons k v rest) (depth + 1) ++
      ('\n' :: (indentChars depth ++ ['\x7d']))))
/-- Members of a nonempty object, one per line: indent, quoted key,
colon-space, value; separated by a comma and a newline. -/
def printMembersChars : JsonMembers → Nat → List Char
  | JsonMembers.nil, _ => []
  | JsonMembers.cons k v JsonMembers.nil, depth =>
    indentChars depth ++ ('"' :: (quoteBody k.data ++ ('"' :: (':' :: (' ' :: printValChars v depth)))))
  | JsonMembers.cons k v (JsonMembers.cons k2 v2 rest), depth =>
    (indentChars depth ++ ('"' :: (quoteBody k.data ++ ('"' :: (':' :: (' ' :: printValChars v depth)))))) ++
      (',' :: ('\n' :: printMembersChars (JsonMembers.cons k2 v2 rest) depth))
end

/-- `JSON.stringify(value, undefined, "  ")` as a string. -/
def jsonStringify (d : Json) : String :=
  String.mk (printValChars d 0)

/-- JSON insignificant whitespace. -/
def isJsonWs (c : Char) : Bool :=
  c == ' ' || c == '\t' || c == '\n' || c == '\r'

/-- Drop leading JSON whitespace. -/
def skipWs : List Char → List Char
  | [] => []
  | c :: cs => if isJsonWs c then skipWs cs else c :: cs

/-- A list of JSON whitespace characters. -/
def allWs : List Char → Bool
  | [] => true
  | c :: cs => isJsonWs c && allWs cs

/-- Value of one hexadecimal digit character. -/
def hexVal (c : Char) : Option Nat :=
  if c.isDigit then some (c.toNat - 48)
  else if 'a' ≤ c && c ≤ 'f' then some (c.toNat - 87)
  else if 'A' ≤ c && c ≤ 'F' then some (c.toNat - 55)
  else none

/-- The character denoted by a single-character JSON escape. -/
def unescapeChar (e : Char) : Option Char :=
  if e = '"' then some '"'
  else if e = '\\' then some '\\'
  else if e = '/' then some '/'
  else if e = 'b' then some '\x08'
  else if e = 'f' then some '\x0c'
  else if e = 'n' then some '\n'
  else if e = 'r' then some '\r'
  else if e = 't' then some '\t'
  else none

/-- Parse the body of a JSON string after its opening quote, returning
the decoded characters and the remainder after the closing quote
(first matching pattern wins: closing quote, `\\u` escape with four hex
digits, single-character escape, plain character). -/
def parseStringBody : List Char → Option (List Char × List Char)
  | [] => none
  | '"' :: rest => some ([], rest)
  | '\\' :: ('u' :: (h1 :: (h2 :: (h3 :: (h4 :: rest3))))) =>
    match hexVal h1, hexVal h2, hexVal h3, hexVal h4 with
    | some a, some b, some c2, some d =>
      (parseStringBody rest3).map
        (fun p => (Char.ofNat (4096 * a + 256 * b + 16 * c2 + d) :: p.1, p.2))
    | _, _, _, _ => none
  | '\\' :: (e :: rest2) =>
    match unescapeChar e with
    | some u => (parseStringBody rest2).map (fun p => (u :: p.1, p.2))
    | none => none
  | '\\' :: [] => none
  | c :: rest => (parseStringBody rest).map (fun p => (c :: p.1, p.2))

mutual
/-- Model of `JSON.parse` on the sublanguage the tool emits (strings
and string-keyed objects), fuel-indexed: parse one value, returning it
with the remainder directly after it. -/
def parseVal : Nat → List Char → Option (Json × List Char)
  | 0, _ => none
  | fuel + 1, cs =>
    match skipWs cs with
    | [] => none
    | c :: rest =>
      if c = '"' then
        (parseStringBody rest).map (fun p => (Json.str (String.mk p.1), p.2))
      else if c = '\x7b' then
        match skipWs rest with
        | [] => none
        | c2 :: r2 =>
          if c2 = '\x7d' then some (Json.obj JsonMembers.nil, r2)
          else (parseMems fuel rest).map (fun p => (Json.obj p.1, p.2))
      else none
/-- Parse the members of a nonempty object after its opening brace,
consuming through the closing brace. -/
def parseMems : Nat → List Char → Option (JsonMembers × List Char)
  | 0, _ => none
  | fuel + 1, cs =>
    match skipWs cs with
    | [] => none
    | c :: rest =>
      if c = '"' then
        match parseStringBody rest with
        | none => none
        | some (k, r1) =>
          match skipWs r1 with
          | [] => none
          | c1 :: r2 =>
            if c1 = ':' then
              match parseVal fuel r2 with
              | none => none
              | some (v, r3) =>
                match skipWs r3 with
                | [] => none
                | c2 :: r4 =>
                  if c2 = ',' then
                    (parseMems fuel r4).map
                      (fun p => (JsonMembers.cons (String.mk k) v p.1, p.2))
                  else if c2 = '\x7d' then
                    some (JsonMembers.cons (String.mk k) v JsonMembers.nil, r4)
                  else none
            else none
      else none
end

mutual
/-- Fuel needed by `parseVal` for a value (one unit per parser call). -/
def sizeV : Json → Nat
  | Json.str _ => 1
  | Json.obj ms => 1 + sizeM ms
/-- Fuel needed by `parseMems` for a member list. -/
def sizeM : JsonMembers → Nat
  | JsonMembers.nil => 0
  | JsonMembers.cons _ v rest => 1 + max (sizeV v) (sizeM rest)
end

/-- `JSON.parse` on a whole document: one value followed by at most
trailing whitespace. -/
def jsonParse (s : String) : Option Json :=
  match parseVal (s.data.length + 1) s.data with
  | some p => if skipWs p.2 = [] then some p.1 else none
  | none => none

/-- The accumulated mapping as JSON object members. -/
def membersOfImports : List (String × String) → JsonMembers
  | [] => JsonMembers.nil
  | (k, v) :: rest => JsonMembers.cons k (Json.str v) (membersOfImports rest)

/-- The import-map document built by `main` (src/dp.ts lines 273-275):
the mapping wrapped under the single `imports` field; no `scopes`
member is ever created. -/
def emitDoc (imports : List (String × String)) : Json :=
  Json.obj (JsonMembers.cons ("imports") (Json.obj (membersOfImports imports)) JsonMembers.nil)

/-- The members of a document object (`nil` for a string). -/
def docMembers : Json → JsonMembers
  | Json.obj ms => ms
  | Json.str _ => JsonMembers.nil

/-- The keys of a member list, in order. -/
def memberKeys : JsonMembers → List String
  | JsonMembers.nil => []
  | JsonMembers.cons k _ rest => k :: memberKeys rest

/-- Member lookup by key. -/
def lookupMember : JsonMembers → String → Option Json
  | JsonMembers.nil, _ => none
  | JsonMembers.cons k v rest, key => if k = key then some v else lookupMember rest key

/-- Read a parsed member list back as a string-to-string mapping
(defined only when every member value is a string). -/
def importsOfMembers : JsonMembers → Option (List (String × String))
  | JsonMembers.nil => some []
  | JsonMembers.cons k (Json.str v) rest =>
    (importsOfMembers rest).map (fun l => (k, v) :: l)
  | JsonMembers.cons _ (Json.obj _) _ => none

/-- Re-parse a serialized import-map document and extract the mapping
under its `imports` field. -/
def decodeImportMap (s : String) : Option (List (String × String)) :=
  match jsonParse s with
  | some (Json.obj (JsonMembers.cons k (Json.obj ms) JsonMembers.nil)) =>
    if k = ("imports") then importsOfMembers ms else none
  | _ => none

lemma processEntry_types (sv : Semver) (cdn : Cdn) (k v : String)
    (h : jsStartsWith k ("@types") = true) :
    processEntry sv cdn k v = Except.error (Warning.typeOnly k) := by
  simp [processEntry, h]

lemma headIsLocal_not_types (k : String) (h : headIsLocal k = true) :
    jsStartsWith k ("@types") = false := by
  rcases hd : k.data with _ | ⟨c, cs⟩
  · simp [headIsLocal, hd] at h
  · have hc : (c = '.' ∨ c = '~') ∨ c = '/' := by
      have h' := h
      rw [headIsLocal] at h'
      rw [hd] at h'
      simpa using h'
    show (("@types").data.isPrefixOf k.data) = false
    rw [hd]
    rcases hc with (rfl | rfl) | rfl <;> rfl

/-- C1: for the manifest with dependencies = `lodash ↦ ^4.17.0`, CDN
`unpkg`, sections `[dependencies]`, the produced import map is exactly
`lodash ↦ https://unpkg.com/lodash@%5E4.17.0` — the original range
string with only the caret percent-encoded — and the emitted document
serializes accordingly. -/
theorem claim_C1 :
    (getImports specSemver ⟨some [(("lodash"), ("^4.17.0"))], none, none, none⟩
        [SectionKey.dependencies] Cdn.unpkg).1 =
      [(("lodash"), ("https://unpkg.com/lodash@%5E4.17.0"))] ∧
    jsonStringify (emitDoc
        (getImports specSemver ⟨some [(("lodash"), ("^4.17.0"))], none, none, none⟩
          [SectionKey.dependencies] Cdn.unpkg).1) =
      ("\x7b\n  \"imports\": \x7b\n    \"lodash\": \"https://unpkg.com/lodash@%5E4.17.0\"\n  \x7d\n\x7d") := by
  exact ⟨by decide, by decide⟩

/-- C2: an empty or `"*"` version specifier classifies as Wildcard:
for any entry (not caught by the `@types` skip) whose specifier is
`""` or `"*"`, the reducer builds the URL with no version argument
(the no-version template of the selected CDN) and writes it into the
mapping, then continues with the remaining entries. -/
theorem claim_C2 (cdn : Cdn) (k v : String) (imports rest : List (String × String))
    (hk : jsStartsWith k ("@types") = false) (hv : v = ("") ∨ v = ("*")) :
    processEntry specSemver cdn k v = Except.ok (cdns cdn k none) ∧
    addImports specSemver imports ((k, v) :: rest) cdn =
      addImports specSemver (setKey imports k (cdns cdn k none)) rest cdn := by
  have hpe : processEntry specSemver cdn k v = Except.ok (cdns cdn k none) := by
    rcases hv with rfl | rfl
    · have h1 : jsTruthy (specSemver.valid ("")) = false := rfl
      have h2 : jsTruthy (specSemver.validRange ("")) = false := rfl
      simp [processEntry, hk, h1, h2]
    · have h1 : jsTruthy (specSemver.valid ("*")) = false := rfl
      have h2 : jsTruthy (specSemver.validRange ("*")) = false := rfl
      simp [processEntry, hk, h1, h2]
  exact ⟨hpe, by simp [addImports, hpe]⟩

theorem claim_C2_witness :
    processEntry specSemver Cdn.unpkg ("foo") ("*") = Except.ok (cdns Cdn.unpkg ("foo") none) ∧
    addImports specSemver [] [(("foo"), ("*"))] Cdn.unpkg =
      addImports specSemver (setKey [] ("foo") (cdns Cdn.unpkg ("foo") none)) [] Cdn.unpkg :=
  claim_C2 Cdn.unpkg ("foo") ("*") [] [] (by decide) (Or.inr rfl)

/-- C3: each CDN builder returns its fixed template with the version
component percent-encoded by `encodeURI` (which escapes `^`, `>`, `<`
and spaces, as the recorded encodings show); in particular
`cdns skypack "foo" (some "1.2.3") = "https://cdn.skypack.dev/foo@1.2.3"`
and `cdns esm "foo" none = "https://esm.sh/foo"`. -/
theorem claim_C3 :
    (∀ pkg v, v ≠ ("") →
      cdns Cdn.skypack pkg (some v) = ("https://cdn.skypack.dev/") ++ pkg ++ ("@") ++ encodeURI v ∧
      cdns Cdn.esm pkg (some v) = ("https://esm.sh/") ++ pkg ++ ("@") ++ encodeURI v ∧
      cdns Cdn.jspm pkg (some v) = ("https://jspm.dev/npm:") ++ pkg ++ ("@") ++ encodeURI v ∧
      cdns Cdn.unpkg pkg (some v) = ("https://unpkg.com/") ++ pkg ++ ("@") ++ encodeURI v) ∧
    (∀ pkg,
      cdns Cdn.skypack pkg none = ("https://cdn.skypack.dev/") ++ pkg ++ ("/") ∧
      cdns Cdn.esm pkg none = ("https://esm.sh/") ++ pkg ∧
      cdns Cdn.jspm pkg none = ("https://jspm.dev/npm:") ++ pkg ∧
      cdns Cdn.unpkg pkg none = ("https://unpkg.com/") ++ pkg) ∧
    cdns Cdn.skypack ("foo") (some ("1.2.3")) = ("https://cdn.skypack.dev/foo@1.2.3") ∧
    cdns Cdn.esm ("foo") none = ("https://esm.sh/foo") ∧
    encodeURI ("^") = ("%5E") ∧
    encodeURI (" ") = ("%20") ∧
    encodeURI (">=1.2.3 <2.0.0") = ("%3E=1.2.3%20%3C2.0.0") := by
  refine ⟨?_, ?_, by decide, by decide, by decide, by decide, by decide⟩
  · intro pkg v hv
    have ht : jsTruthy (some v) = true := by
      simp [jsTruthy, hv]
    refine ⟨?_, ?_, ?_, ?_⟩ <;> simp [cdns, ht, jsVal]
  · intro pkg
    refine ⟨?_, ?_, ?_, ?_⟩ <;> simp [cdns, jsTruthy]

theorem claim_C3_witness :
    cdns Cdn.skypack ("foo") (some ("^1.0.0")) =
      ("https://cdn.skypack.dev/") ++ ("foo") ++ ("@") ++ encodeURI ("^1.0.0") ∧
    cdns Cdn.esm ("bar") none = ("https://esm.sh/") ++ ("bar") :=
  ⟨(claim_C3.1 ("foo") ("^1.0.0") (by decide)).1, (claim_C3.2.1 ("bar")).2.1⟩

/-- C4: whenever the version specifier fails the `semver.valid` and
`semver.validRange` probes, is neither empty nor `"*"`, and is not a
git reference, an entry whose package NAME starts with `.`, `~` or `/`
is classified as a local path and skipped with a warning — regardless
of what the version string contains. -/
theorem claim_C4 (sv : Semver) (cdn : Cdn) (k v : String)
    (h1 : jsTruthy (sv.valid v) = false) (h2 : jsTruthy (sv.validRange v) = false)
    (h3 : v ≠ ("")) (h4 : v ≠ ("*"))
    (h5 : (jsStartsWith v ("git+") || jsStartsWith v ("git:")) = false)
    (h6 : headIsLocal k = true) :
    processEntry sv cdn k v = Except.error (Warning.localPath k v) := by
  have hk : jsStartsWith k ("@types") = false := headIsLocal_not_types k h6
  have hv1 : (v == ("")) = false := beq_eq_false_iff_ne.mpr h3
  have hv2 : (v == ("*")) = false := beq_eq_false_iff_ne.mpr h4
  simp [processEntry, hk, h1, h2, hv1, hv2, h5, h6]

theorem claim_C4_witness :
    processEntry specSemver Cdn.jspm ("./local-pkg") ("not a version!") =
      Except.error (Warning.localPath ("./local-pkg") ("not a version!")) :=
  claim_C4 specSemver Cdn.jspm ("./local-pkg") ("not a version!")
    (by decide) (by decide) (by decide) (by decide) (by decide) (by decide)

lemma lookupKey_setKey_self (m : List (String × String)) (k v : String) :
    lookupKey (setKey m k v) k = some v := by
  induction m with
  | nil => simp [setKey, lookupKey]
  | cons a rest ih =>
    obtain ⟨k', v'⟩ := a
    by_cases h : k' = k
    · subst h
      simp [setKey, lookupKey]
    · simp [setKey, lookupKey, h, ih]

lemma lookupKey_setKey_ne (m : List (String × String)) (k' k v : String) (h : k' ≠ k) :
    lookupKey (setKey m k' v) k = lookupKey m k := by
  induction m with
  | nil => simp [setKey, lookupKey, h]
  | cons a rest ih =>
    obtain ⟨a1, a2⟩ := a
    by_cases h2 : a1 = k'
    · subst h2
      simp [setKey, lookupKey, h]
    · by_cases h3 : a1 = k
      · subst h3
        simp [setKey, lookupKey, h2]
      · simp [setKey, lookupKey, h2, h3, ih]

lemma addImports_types_none (sv : Semver) (cdn : Cdn) (deps : List (String × String))
    (imports : List (String × String)) (k : String)
    (hk : jsStartsWith k ("@types") = true) (h : lookupKey imports k = none) :
    lookupKey ((addImports sv imports deps cdn).1) k = none := by
  induction deps generalizing imports with
  | nil => simpa [addImports] using h
  | cons a rest ih =>
    obtain ⟨k', v'⟩ := a
    cases hpe : processEntry sv cdn k' v' with
    | ok url =>
      have hne : k' ≠ k := by
        intro he
        rw [he, processEntry_types sv cdn k v' hk] at hpe
        exact absurd hpe (by simp)
      simp only [addImports, hpe]
      exact ih (setKey imports k' url) (by rw [lookupKey_setKey_ne _ _ _ _ hne]; exact h)
    | error w =>
      simp only [addImports, hpe]
      exact ih imports h

lemma getImportsAux_types_none (sv : Semver) (pj : PackageJson) (cdn : Cdn)
    (keys : List SectionKey) (imports : List (String × String)) (k : String)
    (hk : jsStartsWith k ("@types") = true) (h : lookupKey imports k = none) :
    lookupKey ((getImportsAux sv pj cdn keys imports).1) k = none := by
  induction keys generalizing imports with
  | nil => simpa [getImportsAux] using h
  | cons key rest ih =>
    cases hs : sectionGet pj key with
    | some deps =>
      simp only [getImportsAux, hs]
      exact ih _ (addImports_types_none sv cdn deps imports k hk h)
    | none =>
      simp only [getImportsAux, hs]
      exact ih _ h

/-- C6: a dependency whose name begins with the type-only marker
`@types` is skipped with the type-only warning and never appears in
the output mapping, whatever its version specifier would classify as
and whatever the semver oracle says. -/
theorem claim_C6 (sv : Semver) (cdn : Cdn) (k v : String)
    (hk : jsStartsWith k ("@types") = true) :
    processEntry sv cdn k v = Except.error (Warning.typeOnly k) ∧
    ∀ (pj : PackageJson) (keys : List SectionKey),
      lookupKey ((getImports sv pj keys cdn).1) k = none :=
  ⟨processEntry_types sv cdn k v hk,
   fun pj keys => getImportsAux_types_none sv pj cdn keys [] k hk rfl⟩

theorem claim_C6_witness :
    processEntry specSemver Cdn.skypack ("@types/foo") ("1.0.0") =
      Except.error (Warning.typeOnly ("@types/foo")) ∧
    lookupKey ((getImports specSemver ⟨some [(("@types/foo"), ("1.0.0"))], none, none, none⟩
        [SectionKey.dependencies] Cdn.skypack).1) ("@types/foo") = none := by
  have h := claim_C6 specSemver Cdn.skypack ("@types/foo") ("1.0.0") (by decide)
  exact ⟨h.1, h.2 ⟨some [(("@types/foo"), ("1.0.0"))], none, none, none⟩ [SectionKey.dependencies]⟩

/-- C10: the type-only skip is a plain string-prefix test for the six
characters `@types`: names outside the `@types` scope that merely
start with them, such as `@typescript-eslint/parser` and
`@types-helper`, are also skipped with the type-only warning and never
appear in the output mapping, for any version specifier. -/
theorem claim_C10 (sv : Semver) (cdn : Cdn) (v : String) (pj : PackageJson)
    (keys : List SectionKey) :
    processEntry sv cdn ("@typescript-eslint/parser") v =
      Except.error (Warning.typeOnly ("@typescript-eslint/parser")) ∧
    processEntry sv cdn ("@types-helper") v =
      Except.error (Warning.typeOnly ("@types-helper")) ∧
    lookupKey ((getImports sv pj keys cdn).1) ("@typescript-eslint/parser") = none ∧
    lookupKey ((getImports sv pj keys cdn).1) ("@types-helper") = none :=
  ⟨processEntry_types sv cdn _ v (by decide),
   processEntry_types sv cdn _ v (by decide),
   getImportsAux_types_none sv pj cdn keys [] _ (by decide) rfl,
   getImportsAux_types_none sv pj cdn keys [] _ (by decide) rfl⟩

/-- C7: processing one dependency entry either writes exactly one
fully built CDN URL into the mapping under the entry's name, or writes
nothing for that entry and contributes exactly one advisory warning;
in both cases the remaining entries are still processed and the
mapping built so far is preserved. -/
theorem claim_C7 (sv : Semver) (cdn : Cdn) (imports rest : List (String × String))
    (key value : String) :
    (∃ a, processEntry sv cdn key value = Except.ok (cdns cdn key a) ∧
      addImports sv imports ((key, value) :: rest) cdn =
        addImports sv (setKey imports key (cdns cdn key a)) rest cdn) ∨
    (∃ w, processEntry sv cdn key value = Except.error w ∧
      addImports sv imports ((key, value) :: rest) cdn =
        ((addImports sv imports rest cdn).1, w :: (addImports sv imports rest cdn).2)) := by
  have hshape : (∃ a, processEntry sv cdn key value = Except.ok (cdns cdn key a)) ∨
      (∃ w, processEntry sv cdn key value = Except.error w) := by
    by_cases h1 : jsStartsWith key ("@types") = true
    · exact Or.inr ⟨_, processEntry_types sv cdn key value h1⟩
    · by_cases h2 : jsTruthy (sv.valid value) = true
      · exact Or.inl ⟨sv.valid value, by simp [processEntry, h1, h2]⟩
      · by_cases h3 : jsTruthy (sv.validRange value) = true
        · exact Or.inl ⟨sv.validRange value, by simp [processEntry, h1, h2, h3]⟩
        · by_cases h4 : (value == ("") || value == ("*")) = true
          · exact Or.inl ⟨none, by simp [processEntry, h1, h2, h3, h4]⟩
          · by_cases h5 : (jsStartsWith value ("git+") || jsStartsWith value ("git:")) = true
            · exact Or.inr ⟨Warning.gitDependency key value,
                by simp [processEntry, h1, h2, h3, h4, h5]⟩
            · by_cases h6 : headIsLocal key = true
              · exact Or.inr ⟨Warning.localPath key value,
                  by simp [processEntry, h1, h2, h3, h4, h5, h6]⟩
              · by_cases h7 : (jsStartsWith value ("http:") || jsStartsWith value ("https:")) = true
                · exact Or.inr ⟨Warning.remoteUrl key value,
                    by simp [processEntry, h1, h2, h3, h4, h5, h6, h7]⟩
                · by_cases h8 : jsIncludes value '/' = true
                  · exact Or.inr ⟨Warning.gitHubUrl key value,
                      by simp [processEntry, h1, h2, h3, h4, h5, h6, h7, h8]⟩
                  · exact Or.inl ⟨some value, by simp [processEntry, h1, h2, h3, h4, h5, h6, h7, h8]⟩
  rcases hshape with ⟨a, ha⟩ | ⟨w, hw⟩
  · exact Or.inl ⟨a, ha, by simp [addImports, ha]⟩
  · exact Or.inr ⟨w, hw, by simp [addImports, hw]⟩

lemma keys_setKey (m : List (String × String)) (k v : String) :
    (setKey m k v).map Prod.fst =
      if k ∈ m.map Prod.fst then m.map Prod.fst else m.map Prod.fst ++ [k] := by
  induction m with
  | nil => simp [setKey]
  | cons a rest ih =>
    obtain ⟨k', v'⟩ := a
    by_cases h : k' = k
    · subst h
      simp [setKey]
    · have hne : ¬k = k' := fun he => h he.symm
      simp only [setKey, if_neg h, List.map_cons, ih, List.mem_cons, hne, false_or]
      split_ifs <;> simp

lemma nodup_setKey (m : List (String × String)) (k v : String)
    (h : (m.map Prod.fst).Nodup) : ((setKey m k v).map Prod.fst).Nodup := by
  rw [keys_setKey]
  split_ifs with hmem
  · exact h
  · rw [List.nodup_append]
    exact ⟨h, List.nodup_singleton k, by
      intro a ha hb
      rw [List.mem_singleton] at hb
      exact hmem (hb ▸ ha)⟩

lemma addImports_nodup (sv : Semver) (cdn : Cdn) (deps imports : List (String × String))
    (h : (imports.map Prod.fst).Nodup) :
    (((addImports sv imports deps cdn).1).map Prod.fst).Nodup := by
  induction deps generalizing imports with
  | nil => simpa [addImports] using h
  | cons a rest ih =>
    obtain ⟨k, v⟩ := a
    cases hpe : processEntry sv cdn k v with
    | ok url =>
      simp only [addImports, hpe]
      exact ih _ (nodup_setKey _ _ _ h)
    | error w =>
      simp only [addImports, hpe]
      exact ih _ h

lemma getImportsAux_nodup (sv : Semver) (pj : PackageJson) (cdn : Cdn)
    (keys : List SectionKey) (imports : List (String × String))
    (h : (imports.map Prod.fst).Nodup) :
    (((getImportsAux sv pj cdn keys imports).1).map Prod.fst).Nodup := by
  induction keys generalizing imports with
  | nil => simpa [getImportsAux] using h
  | cons key rest ih =>
    cases hs : sectionGet pj key with
    | some deps =>
      simp only [getImportsAux, hs]
      exact ih _ (addImports_nodup sv cdn deps imports h)
    | none =>
      simp only [getImportsAux, hs]
      exact ih _ h

lemma addImports_append_fst (sv : Semver) (cdn : Cdn)
    (a b imports : List (String × String)) :
    (addImports sv imports (a ++ b) cdn).1 =
      (addImports sv (addImports sv imports a cdn).1 b cdn).1 := by
  induction a generalizing imports with
  | nil => simp [addImports]
  | cons x rest ih =>
    obtain ⟨k, v⟩ := x
    cases hpe : processEntry sv cdn k v with
    | ok url => simp [addImports, hpe, ih]
    | error w => simp [addImports, hpe, ih]

/-- C5: the final mapping contains at most one entry per package name
(its key list has no duplicates); the last write for a name wins (an
entry processed after all others with that name determines the final
URL); and with sections `[peerDependencies, dependencies]` — the order
`main` produces when only `--peer` is set — and both sections
containing `x` with different versions, the final `x` maps to the URL
built from the `dependencies` entry. -/
theorem claim_C5 :
    (∀ (sv : Semver) (pj : PackageJson) (keys : List SectionKey) (cdn : Cdn),
      (((getImports sv pj keys cdn).1).map Prod.fst).Nodup) ∧
    (∀ (sv : Semver) (cdn : Cdn) (imports deps : List (String × String)) (k v url : String),
      processEntry sv cdn k v = Except.ok url →
      lookupKey ((addImports sv imports (deps ++ [(k, v)]) cdn).1) k = some url) ∧
    mainKeys false false true = [SectionKey.peerDependencies, SectionKey.dependencies] ∧
    (getImports specSemver ⟨some [(("x"), ("2.0.0"))], none, some [(("x"), ("1.0.0"))], none⟩
        (mainKeys false false true) Cdn.unpkg).1 =
      [(("x"), ("https://unpkg.com/x@2.0.0"))] := by
  refine ⟨?_, ?_, by decide, by decide⟩
  · intro sv pj keys cdn
    exact getImportsAux_nodup sv pj cdn keys [] (by simp)
  · intro sv cdn imports deps k v url hpe
    rw [addImports_append_fst]
    simp [addImports, hpe, lookupKey_setKey_self]

theorem claim_C5_witness :
    lookupKey ((addImports specSemver []
        ([(("a"), ("1.0.0"))] ++ [(("k"), ("1.0.0"))]) Cdn.esm).1) ("k") =
      some ("https://esm.sh/k@1.0.0") :=
  claim_C5.2.1 specSemver Cdn.esm [] [(("a"), ("1.0.0"))] ("k") ("1.0.0")
    ("https://esm.sh/k@1.0.0") (by rfl)

/-- C9: the emitted document wraps the accumulated mapping under a
single `imports` field (its member-key list is exactly `["imports"]`),
never contains a `scopes` member, and serializes via `JSON.stringify`
with two-space indentation, shown literally for a one-entry mapping
and for the empty mapping. -/
theorem claim_C9 :
    (∀ m : List (String × String), memberKeys (docMembers (emitDoc m)) = [("imports")]) ∧
    (∀ m : List (String × String), lookupMember (docMembers (emitDoc m)) ("scopes") = none) ∧
    (∀ m : List (String × String),
      lookupMember (docMembers (emitDoc m)) ("imports") = some (Json.obj (membersOfImports m))) ∧
    jsonStringify (emitDoc [(("a"), ("b"))]) =
      ("\x7b\n  \"imports\": \x7b\n    \"a\": \"b\"\n  \x7d\n\x7d") ∧
    jsonStringify (emitDoc []) = ("\x7b\n  \"imports\": \x7b\x7d\n\x7d") :=
  ⟨fun _ => rfl, fun _ => rfl, fun _ => rfl, by decide, by decide⟩

lemma skipWs_cons_ws (c : Char) (l : List Char) (h : isJsonWs c = true) :
    skipWs (c :: l) = skipWs l := by
  simp [skipWs, h]

lemma skipWs_cons_not (c : Char) (l : List Char) (h : isJsonWs c = false) :
    skipWs (c :: l) = c :: l := by
  simp [skipWs, h]

/-- The two-space indent is all whitespace for `skipWs`. -/
lemma skipWs_indent (n : Nat) (l : List Char) :
    skipWs (indentChars n ++ l) = skipWs l := by
  induction n with
  | zero => simp [indentChars]
  | succ k ih =>
    simp only [indentChars, List.cons_append]
    rw [skipWs_cons_ws _ _ (by decide), skipWs_cons_ws _ _ (by decide), ih]

lemma skipWs_append_allWs (a b : List Char) (h : allWs a = true) :
    skipWs (a ++ b) = skipWs b := by
  induction a with
  | nil => simp
  | cons c cs ih =>
    simp only [allWs, Bool.and_eq_true] at h
    rw [List.cons_append, skipWs_cons_ws _ _ h.1, ih h.2]

lemma hexVal_hexLower (n : Nat) (h : n < 16) : hexVal (hexLower n) = some n := by
  interval_cases n <;> decide

lemma hexVal_zero : hexVal '0' = some 0 := by decide

lemma parseStringBody_close (x : List Char) : parseStringBody ('"' :: x) = some ([], x) := rfl

lemma parseStringBody_u (h1 h2 h3 h4 : Char) (x : List Char) :
    parseStringBody ('\\' :: ('u' :: (h1 :: (h2 :: (h3 :: (h4 :: x)))))) =
      (match hexVal h1, hexVal h2, hexVal h3, hexVal h4 with
        | some a, some b, some c2, some d =>
          (parseStringBody x).map
            (fun p => (Char.ofNat (4096 * a + 256 * b + 16 * c2 + d) :: p.1, p.2))
        | _, _, _, _ => none) := rfl

lemma parseStringBody_plain (c : Char) (x : List Char) (hq : ¬c = '"') (hb : ¬c = '\\') :
    parseStringBody (c :: x) = (parseStringBody x).map (fun p => (c :: p.1, p.2)) := by
  rw [parseStringBody.eq_def]
  split <;> simp_all

/-- Parsing inverts quoting: the parser recovers exactly the original
characters from a quoted string body. -/
lemma parseStringBody_quoteBody (cs rest : List Char) :
    parseStringBody (quoteBody cs ++ ('"' :: rest)) = some (cs, rest) := by
  induction cs with
  | nil =>
    simp only [quoteBody, List.nil_append]
    exact parseStringBody_close rest
  | cons c cs ih =>
    by_cases h1 : c = '"'
    · subst h1
      have he : quoteBody ('"' :: cs) = '\\' :: ('"' :: quoteBody cs) := rfl
      rw [he, List.cons_append, List.cons_append]
      have hstep : parseStringBody ('\\' :: ('"' :: (quoteBody cs ++ ('"' :: rest)))) =
          (parseStringBody (quoteBody cs ++ ('"' :: rest))).map
            (fun p => ('"' :: p.1, p.2)) := rfl
      rw [hstep, ih]
      rfl
    · by_cases h2 : c = '\\'
      · subst h2
        have he : quoteBody ('\\' :: cs) = '\\' :: ('\\' :: quoteBody cs) := rfl
        rw [he, List.cons_append, List.cons_append]
        have hstep : parseStringBody ('\\' :: ('\\' :: (quoteBody cs ++ ('"' :: rest)))) =
            (parseStringBody (quoteBody cs ++ ('"' :: rest))).map
              (fun p => ('\\' :: p.1, p.2)) := rfl
        rw [hstep, ih]
        rfl
      · by_cases h3 : c = '\x08'
        · subst h3
          have he : quoteBody ('\x08' :: cs) = '\\' :: ('b' :: quoteBody cs) := rfl
          rw [he, List.cons_append, List.cons_append]
          have hstep : parseStringBody ('\\' :: ('b' :: (quoteBody cs ++ ('"' :: rest)))) =
              (parseStringBody (quoteBody cs ++ ('"' :: rest))).map
                (fun p => ('\x08' :: p.1, p.2)) := rfl
          rw [hstep, ih]
          rfl
        · by_cases h4 : c = '\x0c'
          · subst h4
            have he : quoteBody ('\x0c' :: cs) = '\\' :: ('f' :: quoteBody cs) := rfl
            rw [he, List.cons_append, List.cons_append]
            have hstep : parseStringBody ('\\' :: ('f' :: (quoteBody cs ++ ('"' :: rest)))) =
                (parseStringBody (quoteBody cs ++ ('"' :: rest))).map
                  (fun p => ('\x0c' :: p.1, p.2)) := rfl
            rw [hstep, ih]
            rfl
          · by_cases h5 : c = '\n'
            · subst h5
              have he : quoteBody ('\n' :: cs) = '\\' :: ('n' :: quoteBody cs) := rfl
              rw [he, List.cons_append, List.cons_append]
              have hstep : parseStringBody ('\\' :: ('n' :: (quoteBody cs ++ ('"' :: rest)))) =
                  (parseStringBody (quoteBody cs ++ ('"' :: rest))).map
                    (fun p => ('\n' :: p.1, p.2)) := rfl
              rw [hstep, ih]
              rfl
            · by_cases h6 : c = '\r'
              · subst h6
                have he : quoteBody ('\r' :: cs) = '\\' :: ('r' :: quoteBody cs) := rfl
                rw [he, List.cons_append, List.cons_append]
                have hstep : parseStringBody ('\\' :: ('r' :: (quoteBody cs ++ ('"' :: rest)))) =
                    (parseStringBody (quoteBody cs ++ ('"' :: rest))).map
                      (fun p => ('\r' :: p.1, p.2)) := rfl
                rw [hstep, ih]
                rfl
              · by_cases h7 : c = '\t'
                · subst h7
                  have he : quoteBody ('\t' :: cs) = '\\' :: ('t' :: quoteBody cs) := rfl
                  rw [he, List.cons_append, List.cons_append]
                  have hstep : parseStringBody ('\\' :: ('t' :: (quoteBody cs ++ ('"' :: rest)))) =
                      (parseStringBody (quoteBody cs ++ ('"' :: rest))).map
                        (fun p => ('\t' :: p.1, p.2)) := rfl
                  rw [hstep, ih]
                  rfl
                · by_cases h8 : c.toNat < 32
                  · have hhi : c.toNat / 16 < 16 := by omega
                    have hlo : c.toNat % 16 < 16 := Nat.mod_lt _ (by norm_num)
                    have he : quoteBody (c :: cs) =
                        '\\' :: ('u' :: ('0' :: ('0' :: (hexLower (c.toNat / 16) ::
                          (hexLower (c.toNat % 16) :: quoteBody cs))))) := by
                      simp only [quoteBody, escapeJSONChar, if_neg h1, if_neg h2, if_neg h3,
                        if_neg h4, if_neg h5, if_neg h6, if_neg h7, if_pos h8]
                      rfl
                    rw [he]
                    simp only [List.cons_append]
                    rw [parseStringBody_u]
                    rw [hexVal_zero, hexVal_hexLower _ hhi, hexVal_hexLower _ hlo, ih]
                    simp only [Option.map_some]
                    have harith : 4096 * 0 + 256 * 0 + 16 * (c.toNat / 16) + c.toNat % 16 =
                        c.toNat := by omega
                    rw [harith, Char.ofNat_toNat]
                    rfl
                  · have he : quoteBody (c :: cs) = c :: quoteBody cs := by
                      simp only [quoteBody, escapeJSONChar, if_neg h1, if_neg h2, if_neg h3,
                        if_neg h4, if_neg h5, if_neg h6, if_neg h7, if_neg h8]
                      rfl
                    rw [he, List.cons_append, parseStringBody_plain c _ h1 h2, ih]
                    rfl

lemma stringMk_data (s : String) : String.mk s.data = s := rfl

lemma sizeV_pos (d : Json) : 1 ≤ sizeV d := by
  cases d <;> simp [sizeV]

lemma skipWs_colon (l : List Char) : skipWs (':' :: l) = ':' :: l :=
  skipWs_cons_not _ _ (by decide)

lemma skipWs_comma (l : List Char) : skipWs (',' :: l) = ',' :: l :=
  skipWs_cons_not _ _ (by decide)

lemma parse_print_rt : ∀ fuel : Nat,
    (∀ (d : Json) (depth : Nat) (pre rest : List Char), allWs pre = true → sizeV d ≤ fuel →
      parseVal fuel (pre ++ (printValChars d depth ++ rest)) = some (d, rest)) ∧
    (∀ (ms : JsonMembers) (depth e : Nat) (pre rest : List Char), allWs pre = true →
      ms ≠ JsonMembers.nil → sizeM ms ≤ fuel →
      parseMems fuel (pre ++ (printMembersChars ms (depth + 1) ++
        ('\n' :: (indentChars e ++ ('\x7d' :: rest))))) = some (ms, rest)) := by
  intro fuel
  induction fuel with
  | zero =>
    constructor
    · intro d depth pre rest hpre hsz
      have := sizeV_pos d
      omega
    · intro ms depth e pre rest hpre hne hsz
      cases ms with
      | nil => exact absurd rfl hne
      | cons k v ms' => simp [sizeM] at hsz
  | succ fuel ih =>
    obtain ⟨ihV, ihM⟩ := ih
    constructor
    · intro d depth pre rest hpre hsz
      cases d with
      | str s =>
        have hin : printValChars (Json.str s) depth ++ rest =
            '"' :: (quoteBody s.data ++ ('"' :: rest)) := by
          show ('"' :: (quoteBody s.data ++ ['"'])) ++ rest = _
          simp [List.cons_append, List.append_assoc]
        have hs : skipWs (pre ++ (printValChars (Json.str s) depth ++ rest)) =
            '"' :: (quoteBody s.data ++ ('"' :: rest)) := by
          rw [skipWs_append_allWs _ _ hpre, hin, skipWs_cons_not _ _ (by decide)]
        rw [parseVal, hs]
        simp [parseStringBody_quoteBody, stringMk_data]
      | obj ms =>
        cases ms with
        | nil =>
          have hin : printValChars (Json.obj JsonMembers.nil) depth ++ rest =
              '\x7b' :: ('\x7d' :: rest) := rfl
          have hs : skipWs (pre ++ (printValChars (Json.obj JsonMembers.nil) depth ++ rest)) =
              '\x7b' :: ('\x7d' :: rest) := by
            rw [skipWs_append_allWs _ _ hpre, hin, skipWs_cons_not _ _ (by decide)]
          rw [parseVal, hs]
          have h2 : skipWs ('\x7d' :: rest) = '\x7d' :: rest :=
            skipWs_cons_not _ _ (by decide)
          simp [h2]
        | cons k v ms' =>
          have hms : sizeM (JsonMembers.cons k v ms') ≤ fuel := by
            simp only [sizeV] at hsz
            omega
          obtain ⟨W, hW⟩ : ∃ W, printMembersChars (JsonMembers.cons k v ms') (depth + 1) =
              indentChars (depth + 1) ++ ('"' :: W) := by
            cases ms' with
            | nil => exact ⟨_, rfl⟩
            | cons k2 v2 ms2 =>
              refine ⟨(quoteBody k.data ++ ('"' :: (':' :: (' ' ::
                printValChars v (depth + 1))))) ++
                (',' :: ('\n' :: printMembersChars (JsonMembers.cons k2 v2 ms2) (depth + 1))), ?_⟩
              show (indentChars (depth + 1) ++ _) ++ _ = _
              simp [List.cons_append, List.append_assoc]
          have hin : printValChars (Json.obj (JsonMembers.cons k v ms')) depth ++ rest =
              '\x7b' :: ('\n' :: (printMembersChars (JsonMembers.cons k v ms') (depth + 1) ++
                ('\n' :: (indentChars depth ++ ('\x7d' :: rest))))) := by
            show ('\x7b' :: ('\n' :: (printMembersChars (JsonMembers.cons k v ms') (depth + 1) ++
              ('\n' :: (indentChars depth ++ ['\x7d']))))) ++ rest = _
            simp [List.cons_append, List.append_assoc]
          have hs : skipWs (pre ++
              (printValChars (Json.obj (JsonMembers.cons k v ms')) depth ++ rest)) =
              '\x7b' :: ('\n' :: (printMembersChars (JsonMembers.cons k v ms') (depth + 1) ++
                ('\n' :: (indentChars depth ++ ('\x7d' :: rest))))) := by
            rw [skipWs_append_allWs _ _ hpre, hin, skipWs_cons_not _ _ (by decide)]
          have hs2 : skipWs ('\n' :: (printMembersChars (JsonMembers.cons k v ms') (depth + 1) ++
              ('\n' :: (indentChars depth ++ ('\x7d' :: rest))))) =
              '"' :: (W ++ ('\n' :: (indentChars depth ++ ('\x7d' :: rest)))) := by
            rw [skipWs_cons_ws _ _ (by decide), hW]
            rw [List.append_assoc, List.cons_append]
            rw [skipWs_indent, skipWs_cons_not _ _ (by decide)]
          have hmem := ihM (JsonMembers.cons k v ms') depth depth ['\n'] rest (by decide)
            (by intro h; exact JsonMembers.noConfusion h) hms
          rw [parseVal, hs]
          simp only [List.singleton_append] at hmem
          simp [hs2, hmem]
    · intro ms depth e pre rest hpre hne hsz
      cases ms with
      | nil => exact absurd rfl hne
      | cons k v ms' =>
        have hv : sizeV v ≤ fuel := by
          simp only [sizeM] at hsz
          omega
        cases ms' with
        | nil =>
          have hs : skipWs (pre ++
              (printMembersChars (JsonMembers.cons k v JsonMembers.nil) (depth + 1) ++
                ('\n' :: (indentChars e ++ ('\x7d' :: rest))))) =
              '"' :: (quoteBody k.data ++ ('"' :: (':' :: (' ' :: (printValChars v (depth + 1) ++
                ('\n' :: (indentChars e ++ ('\x7d' :: rest)))))))) := by
            rw [skipWs_append_allWs _ _ hpre]
            have hn : printMembersChars (JsonMembers.cons k v JsonMembers.nil) (depth + 1) ++
                ('\n' :: (indentChars e ++ ('\x7d' :: rest))) =
                indentChars (depth + 1) ++ ('"' :: (quoteBody k.data ++ ('"' :: (':' :: (' ' ::
                  (printValChars v (depth + 1) ++ ('\n' :: (indentChars e ++ ('\x7d' :: rest)))))))))  := by
              show (indentChars (depth + 1) ++ ('"' :: (quoteBody k.data ++ ('"' :: (':' :: (' ' ::
                printValChars v (depth + 1))))))) ++ _ = _
              simp [List.cons_append, List.append_assoc]
            rw [hn, skipWs_indent, skipWs_cons_not _ _ (by decide)]
          rw [parseMems, hs]
          have hval := ihV v (depth + 1) [' ']
            ('\n' :: (indentChars e ++ ('\x7d' :: rest))) (by decide) hv
          simp only [List.singleton_append] at hval
          have hT : skipWs ('\n' :: (indentChars e ++ ('\x7d' :: rest))) = '\x7d' :: rest := by
            rw [skipWs_cons_ws _ _ (by decide), skipWs_indent, skipWs_cons_not _ _ (by decide)]
          simp [parseStringBody_quoteBody, skipWs_colon, hval, hT, stringMk_data]
        | cons k2 v2 ms2 =>
          have hms2 : sizeM (JsonMembers.cons k2 v2 ms2) ≤ fuel := by
            simp only [sizeM] at hsz ⊢
            omega
          have hs : skipWs (pre ++
              (printMembersChars (JsonMembers.cons k v (JsonMembers.cons k2 v2 ms2)) (depth + 1) ++
                ('\n' :: (indentChars e ++ ('\x7d' :: rest))))) =
              '"' :: (quoteBody k.data ++ ('"' :: (':' :: (' ' :: (printValChars v (depth + 1) ++
                (',' :: ('\n' :: (printMembersChars (JsonMembers.cons k2 v2 ms2) (depth + 1) ++
                  ('\n' :: (indentChars e ++ ('\x7d' :: rest))))))))))) := by
            rw [skipWs_append_allWs _ _ hpre]
            have hn : printMembersChars (JsonMembers.cons k v (JsonMembers.cons k2 v2 ms2)) (depth + 1) ++
                ('\n' :: (indentChars e ++ ('\x7d' :: rest))) =
                indentChars (depth + 1) ++ ('"' :: (quoteBody k.data ++ ('"' :: (':' :: (' ' ::
                  (printValChars v (depth + 1) ++ (',' :: ('\n' ::
                    (printMembersChars (JsonMembers.cons k2 v2 ms2) (depth + 1) ++
                      ('\n' :: (indentChars e ++ ('\x7d' :: rest)))))))))))) := by
              show ((indentChars (depth + 1) ++ ('"' :: (quoteBody k.data ++ ('"' :: (':' :: (' ' ::
                printValChars v (depth + 1))))))) ++ (',' :: ('\n' ::
                  printMembersChars (JsonMembers.cons k2 v2 ms2) (depth + 1)))) ++ _ = _
              simp [List.cons_append, List.append_assoc]
            rw [hn, skipWs_indent, skipWs_cons_not _ _ (by decide)]
          rw [parseMems, hs]
          have hval := ihV v (depth + 1) [' ']
            (',' :: ('\n' :: (printMembersChars (JsonMembers.cons k2 v2 ms2) (depth + 1) ++
              ('\n' :: (indentChars e ++ ('\x7d' :: rest)))))) (by decide) hv
          simp only [List.singleton_append] at hval
          have hmem2 := ihM (JsonMembers.cons k2 v2 ms2) depth e ['\n'] rest (by decide)
            (by intro h; exact JsonMembers.noConfusion h) hms2
          simp only [List.singleton_append] at hmem2
          simp [parseStringBody_quoteBody, skipWs_colon, skipWs_comma, hval, hmem2, stringMk_data]

lemma importsOfMembers_membersOf (m : List (String × String)) :
    Eq (importsOfMembers (membersOfImports m)) (some m) := by
  induction m with
  | nil => rfl
  | cons x xs ih =>
    obtain ⟨k, v⟩ := x
    simp [membersOfImports, importsOfMembers, ih]

lemma indentChars_len (n : Nat) : (indentChars n).length = 2 * n := by
  induction n with
  | zero => rfl
  | succ k ih =>
    simp [indentChars, ih]
    omega

lemma sizeM_membersOf (m : List (String × String)) :
    sizeM (membersOfImports m) ≤ m.length + 1 := by
  induction m with
  | nil => simp [membersOfImports, sizeM]
  | cons x xs ih =>
    simp only [membersOfImports, sizeM, sizeV, List.length_cons]
    omega

lemma printM_len_ge (m : List (String × String)) (d : Nat) :
    m.length ≤ (printMembersChars (membersOfImports m) d).length := by
  induction m with
  | nil => simp [membersOfImports, printMembersChars]
  | cons x xs ih =>
    cases xs with
    | nil =>
      simp [membersOfImports, printMembersChars, printValChars, List.length_append]
      omega
    | cons y ys =>
      simp only [membersOfImports, printMembersChars, printValChars,
        List.length_append, List.length_cons] at ih ⊢
      omega

lemma sizeV_emitDoc_le (m : List (String × String)) :
    sizeV (emitDoc m) ≤ m.length + 4 := by
  have h1 := sizeM_membersOf m
  simp only [emitDoc, sizeV, sizeM]
  omega

lemma len_printV_emitDoc_ge (m : List (String × String)) :
    m.length + 3 ≤ (printValChars (emitDoc m) 0).length := by
  cases m with
  | nil => decide
  | cons x xs =>
    have h2 := printM_len_ge (x :: xs) (0 + 1 + 1)
    simp only [membersOfImports] at h2
    simp only [emitDoc, membersOfImports, printValChars, printMembersChars,
      List.length_append, List.length_cons, indentChars_len]
    simp only [List.length_cons, List.length_append] at h2 ⊢
    omega

lemma size_le_len (m : List (String × String)) :
    sizeV (emitDoc m) ≤ (printValChars (emitDoc m) 0).length + 1 := by
  have h1 := sizeV_emitDoc_le m
  have h2 := len_printV_emitDoc_ge m
  omega

/-- C8: round-trip — serializing the emitted import-map document with
two-space-indented stringification and re-parsing it yields a mapping
identical to the one that was passed to the emitter, for every
accumulated mapping. -/
theorem claim_C8 (m : List (String × String)) :
    decodeImportMap (jsonStringify (emitDoc m)) = some m := by
  have hrt := (parse_print_rt ((printValChars (emitDoc m) 0).length + 1)).1 (emitDoc m) 0 [] []
    rfl (size_le_len m)
  simp only [List.nil_append, List.append_nil] at hrt
  have hdata : (jsonStringify (emitDoc m)).data = printValChars (emitDoc m) 0 := rfl
  have hparse : jsonParse (jsonStringify (emitDoc m)) = some (emitDoc m) := by
    unfold jsonParse
    rw [hdata, hrt]
    simp [skipWs]
  unfold decodeImportMap
  rw [hparse]
  simp [emitDoc, importsOfMembers_membersOf]
